import Mathlib

/-!
Verification of the in-memory UML modeling kernel exercised by
`examples/demo_uml_simulation.py` and `tests/test_demo_uml_simulation.py`.
The kernel itself (element store/factory, relationship recipes,
diagram-projection `drop`, ownership containers) is not part of the
repository's visible sources, only its callers and tests are, so every
operation below is modelled from the specification's description of the
kernel (spec sections 3, 4.1-4.5, 7).
-/

namespace Gaphor

/-- Modelled from the spec: the closed set of element kinds used by the
demo (spec section 3, "kind tag (one of a closed set)"). -/
inductive Kind where
  | Package
  | Class
  | Property
  | Operation
  | Parameter
  | Association
  | Generalization
  | Diagram
  | Presentation
deriving DecidableEq

/-- Modelled from the spec: a model entity (spec section 3).  Entities are
addressed by their identifier (a `Nat` key in the store), so references to
other entities are stored as identifiers.  Fields not applicable to an
entity's kind simply keep their defaults. -/
structure Entity where
  kind : Kind
  name : String := ""
  typeValue : String := ""
  direction : String := ""
  /-- A `Property` member-end's type: identifier of a Classifier. -/
  type : Option Nat := none
  /-- A member-end's owning Association. -/
  association : Option Nat := none
  /-- An Association's two member-ends (identifiers of Property ends). -/
  memberEnd : List Nat := []
  /-- A Generalization's parent classifier. -/
  general : Option Nat := none
  /-- A Generalization's child classifier. -/
  specific : Option Nat := none
  /-- A Classifier's parents (`c.general` in the tests). -/
  generalC : List Nat := []
  /-- A Classifier's children (`c.specific` in the tests). -/
  specificC : List Nat := []
  ownedAttribute : List Nat := []
  ownedOperation : List Nat := []
  ownedParameter : List Nat := []
  /-- A Diagram's owned presentations. -/
  ownedPresentation : List Nat := []
  /-- The presentations currently visualizing this entity. -/
  presentation : List Nat := []
  /-- A Presentation's owning diagram. -/
  diagram : Option Nat := none
  /-- A Presentation's model entity (non-owning back-reference). -/
  subject : Option Nat := none
  posX : Int := 0
  posY : Int := 0
  /-- For a relationship presentation: the first bound endpoint presentation. -/
  endpoint0 : Option Nat := none
  /-- For a relationship presentation: the second bound endpoint presentation. -/
  endpoint1 : Option Nat := none
deriving DecidableEq

/-- Modelled from the spec: the Element Identity & Store (spec section 4.1):
an identifier allocator, the authoritative identifier-to-entity mapping, and
the creation order of the identifiers (spec section 4.2: `select` iterates
in creation order). -/
structure Model where
  nextId : Nat
  store : Nat → Option Entity
  order : List Nat

/-- The empty store: no entities, first identifier is 0. -/
def Model.init : Model :=
  { nextId := 0, store := fun _ => none, order := [] }

/-- Register a fresh entity under a fresh identifier (`m.nextId`). -/
def Model.addEntity (m : Model) (e : Entity) : Model :=
  { nextId := m.nextId + 1
    store := fun j => if j = m.nextId then some e else m.store j
    order := m.order ++ [m.nextId] }

/-- Modelled from the spec: `create(kind)` (spec section 4.1): allocate a
fresh identifier, register a blank entity of the given kind, return the
handle (the identifier) together with the updated store. -/
def Model.create (m : Model) (k : Kind) : Nat × Model :=
  (m.nextId, m.addEntity { kind := k })

/-- Create `n` blank entities of kind `k` in sequence. -/
def Model.createMany (m : Model) (k : Kind) : Nat → Model
  | 0 => m
  | n + 1 => (m.create k).2.createMany k n

/-- Update the entity stored under identifier `i` in place. -/
def Model.modify (m : Model) (i : Nat) (f : Entity → Entity) : Model :=
  { m with store := fun j => if j = i then (m.store i).map f else m.store j }

/-- Modelled from the spec: `select(predicate)` (spec section 4.2): all
currently stored entities satisfying the predicate, in creation order. -/
def Model.select (m : Model) (p : Entity → Bool) : List Entity :=
  m.order.filterMap fun i =>
    match m.store i with
    | some e => if p e then some e else none
    | none => none

/-- The "is of kind K" predicate used with `select`. -/
def kindIs (k : Kind) (e : Entity) : Bool := e.kind = k

/-- Renaming an entity (`e.name = s` in the demo): only the name changes. -/
def Model.setName (m : Model) (i : Nat) (s : String) : Model :=
  m.modify i fun e => { e with name := s }

/-- Apply a sequence of renamings (identifier, new name). -/
def applyRenames (m : Model) (rs : List (Nat × String)) : Model :=
  rs.foldl (fun acc r => acc.setName r.1 r.2) m

/-- Well-formedness of the store: every stored identifier, and every
identifier recorded in the creation order, is below the allocator, so a
freshly allocated identifier never collides with an existing entity. -/
def Model.WF (m : Model) : Prop :=
  (∀ i, (m.store i).isSome → i < m.nextId) ∧ ∀ i ∈ m.order, i < m.nextId

/-- Modelled from the spec: the error taxonomy of the kernel
(spec section 7). -/
inductive Err where
  | NotFound
  | Ambiguous
  | InvalidArgument
  | PreconditionFailed
  | InvariantViolation
deriving DecidableEq

/-- A Classifier-kind entity (spec glossary: "a model entity capable of
owning attributes/operations and participating in generalization"); in the
demo the only classifier kind exercised is `Class`. -/
def isClassifier (e : Entity) : Bool := e.kind = Kind.Class

/-- A relationship entity: Association or Generalization (spec section 4.5). -/
def isRelationship (e : Entity) : Bool :=
  e.kind = Kind.Association || e.kind = Kind.Generalization

/-- Modelled from the spec: `create_association(a, b)` (spec section 4.4):
create an Association entity, create two Property-typed member-ends, the
first typed to `a` and the second to `b`, append both to the Association's
`memberEnd` in that order, and return the Association; a non-Classifier
argument signals InvalidArgument. -/
def Model.create_association (m : Model) (a b : Nat) : Except Err (Nat × Model) :=
  match m.store a, m.store b with
  | some ea, some eb =>
    if isClassifier ea && isClassifier eb then
      let assocId := m.nextId
      let m1 := m.addEntity { kind := Kind.Association }
      let endA := m1.nextId
      let m2 := m1.addEntity { kind := Kind.Property, type := some a, association := some assocId }
      let endB := m2.nextId
      let m3 := m2.addEntity { kind := Kind.Property, type := some b, association := some assocId }
      let m4 := m3.modify assocId fun e => { e with memberEnd := e.memberEnd ++ [endA, endB] }
      Except.ok (assocId, m4)
    else Except.error Err.InvalidArgument
  | _, _ => Except.error Err.NotFound

/-- Modelled from the spec: `create_generalization(general, specific)`
(spec section 4.4): create a Generalization entity with `general` and
`specific` set to the two arguments, insert `specific` into
`general.specific` and `general` into `specific.general`; a non-Classifier
argument signals InvalidArgument. -/
def Model.create_generalization (m : Model) (g s : Nat) : Except Err (Nat × Model) :=
  match m.store g, m.store s with
  | some eg, some es =>
    if isClassifier eg && isClassifier es then
      let genId := m.nextId
      let m1 := m.addEntity { kind := Kind.Generalization, general := some g, specific := some s }
      let m2 := m1.modify g fun e => { e with specificC := e.specificC ++ [s] }
      let m3 := m2.modify s fun e => { e with generalC := e.generalC ++ [g] }
      Except.ok (genId, m3)
    else Except.error Err.InvalidArgument
  | _, _ => Except.error Err.NotFound

/-- The first presentation in diagram `d`'s `ownedPresentation` whose
subject is `subj` (spec section 4.5: "the projection must locate those
existing endpoint presentations"). -/
def Model.findPresentationOn (m : Model) (d subj : Nat) : Option Nat :=
  match m.store d with
  | some ed =>
    ed.ownedPresentation.find? fun pid =>
      match m.store pid with
      | some p => p.subject = some subj
      | none => false
  | none => none

/-- Whether entity `subj` has at least one Presentation owned by diagram `d`. -/
def Model.hasPresentationOn (m : Model) (subj d : Nat) : Bool :=
  (m.findPresentationOn d subj).isSome

/-- The two endpoint entities of a relationship entity (spec section 4.5:
"the two classifiers for an Association; general and specific for a
Generalization"). -/
def Model.endpointsOf (m : Model) (e : Entity) : Option (Nat × Nat) :=
  match e.kind with
  | Kind.Association =>
    match e.memberEnd with
    | [e0, e1] =>
      match (m.store e0).bind Entity.type, (m.store e1).bind Entity.type with
      | some a, some b => some (a, b)
      | _, _ => none
    | _ => none
  | Kind.Generalization =>
    match e.general, e.specific with
    | some g, some s => some (g, s)
    | _, _ => none
  | _ => none

/-- Modelled from the spec: `drop(entity, diagram, x, y)` (spec section 4.5).
A plain element gets a fresh Presentation owned by the diagram, positioned
at (x, y), referencing the entity, and registered in the entity's
`presentation` collection.  A relationship element requires both endpoint
entities to already have a Presentation on the same diagram; if so, the
fresh Presentation additionally records the two endpoint presentations it
binds, otherwise the call signals PreconditionFailed (spec section 9 makes
the lookup failure an explicit error) and changes nothing. -/
def Model.drop (m : Model) (eId dId : Nat) (x y : Int) : Except Err (Nat × Model) :=
  match m.store eId, m.store dId with
  | some e, some _ =>
    if isRelationship e then
      match m.endpointsOf e with
      | some (a, b) =>
        match m.findPresentationOn dId a, m.findPresentationOn dId b with
        | some pa, some pb =>
          let pid := m.nextId
          let m1 := m.addEntity
            { kind := Kind.Presentation, diagram := some dId, subject := some eId,
              posX := x, posY := y, endpoint0 := some pa, endpoint1 := some pb }
          let m2 := m1.modify dId fun de =>
            { de with ownedPresentation := de.ownedPresentation ++ [pid] }
          let m3 := m2.modify eId fun ee =>
            { ee with presentation := ee.presentation ++ [pid] }
          Except.ok (pid, m3)
        | _, _ => Except.error Err.PreconditionFailed
      | none => Except.error Err.PreconditionFailed
    else
      let pid := m.nextId
      let m1 := m.addEntity
        { kind := Kind.Presentation, diagram := some dId, subject := some eId,
          posX := x, posY := y }
      let m2 := m1.modify dId fun de =>
        { de with ownedPresentation := de.ownedPresentation ++ [pid] }
      let m3 := m2.modify eId fun ee =>
        { ee with presentation := ee.presentation ++ [pid] }
      Except.ok (pid, m3)
  | _, _ => Except.error Err.NotFound

/-- `drop` as a state transformer: on failure the store is left unchanged
(spec section 7: failures are reported to the caller and never leave a
partial state). -/
def Model.dropRun (m : Model) (eId dId : Nat) (x y : Int) : Except Err Nat × Model :=
  match m.drop eId dId x y with
  | Except.ok (pid, m') => (Except.ok pid, m')
  | Except.error err => (Except.error err, m)

/-- Diagram `d`'s `ownedPresentation` collection (empty if `d` is absent). -/
def Model.ownedPresentationOf (m : Model) (d : Nat) : List Nat :=
  ((m.store d).map Entity.ownedPresentation).getD []

/-- Entity `e`'s `presentation` collection (empty if `e` is absent). -/
def Model.presentationOf (m : Model) (e : Nat) : List Nat :=
  ((m.store e).map Entity.presentation).getD []

/-- Association `a`'s `memberEnd` collection (empty if `a` is absent). -/
def Model.memberEndOf (m : Model) (a : Nat) : List Nat :=
  ((m.store a).map Entity.memberEnd).getD []

/-- The type of member-end `i` (a classifier identifier). -/
def Model.endType (m : Model) (i : Nat) : Option Nat :=
  (m.store i).bind Entity.type

/-- Classifier `c`'s parents (`c.general` in the tests). -/
def Model.generalOf (m : Model) (c : Nat) : List Nat :=
  ((m.store c).map Entity.generalC).getD []

/-- Classifier `c`'s children (`c.specific` in the tests). -/
def Model.specificOf (m : Model) (c : Nat) : List Nat :=
  ((m.store c).map Entity.specificC).getD []

/-- Class `c`'s `ownedAttribute` collection. -/
def Model.ownedAttributeOf (m : Model) (c : Nat) : List Nat :=
  ((m.store c).map Entity.ownedAttribute).getD []

/-- Class `c`'s `ownedOperation` collection. -/
def Model.ownedOperationOf (m : Model) (c : Nat) : List Nat :=
  ((m.store c).map Entity.ownedOperation).getD []

/-- One `create_generalization` call as a state transformer: a failed call
leaves the store unchanged. -/
def Model.genStep (m : Model) (q : Nat × Nat) : Model :=
  match m.create_generalization q.1 q.2 with
  | Except.ok x => x.2
  | Except.error _ => m

/-- A sequence of `create_generalization` calls. -/
def Model.genMany (m : Model) (qs : List (Nat × Nat)) : Model :=
  qs.foldl Model.genStep m

/-- The state after a recipe or drop call, keeping the previous state when
the call failed. -/
def stepOk (r : Except Err (Nat × Model)) (fallback : Model) : Model :=
  match r with
  | Except.ok x => x.2
  | Except.error _ => fallback

/-- Whether a recipe or drop call succeeded. -/
def isOk (r : Except Err (Nat × Model)) : Bool :=
  match r with
  | Except.ok _ => true
  | Except.error _ => false

/-! ### Ownership containers

Modelled from the spec (section 4.3): the generic single-owner container
used for one composite role (a class's attributes, an operation's
parameters, a diagram's presentations).  The state records, for one
container role, each owner's ordered member sequence and each child's
owner reference. -/

/-- Modelled from the spec: the state of one ownership-container role:
`children o` is owner `o`'s ordered member sequence, `ownerOf c` is child
`c`'s owner reference. -/
structure OwnState where
  children : Nat → List Nat
  ownerOf : Nat → Option Nat

/-- The initial container state: every sequence empty, no owner set. -/
def OwnState.init : OwnState :=
  { children := fun _ => [], ownerOf := fun _ => none }

/-- Modelled from the spec: `append(owner, child)` (spec section 4.3): if
the child currently has an owner for this role, remove it from that owner's
sequence first (ownership transfer, not duplication); append the child to
the owner's sequence, preserving insertion order; set the child's owner
reference. -/
def OwnState.append (s : OwnState) (o c : Nat) : OwnState :=
  let ch1 : Nat → List Nat :=
    match s.ownerOf c with
    | some p => fun k => if k = p then (s.children p).filter (· != c) else s.children k
    | none => s.children
  { children := fun k => if k = o then ch1 o ++ [c] else ch1 k
    ownerOf := fun k => if k = c then some o else s.ownerOf k }

/-- Modelled from the spec: `remove(owner, child)` (spec section 4.3):
remove the child from the owner's sequence and clear the child's owner
reference.  The two updates happen together; a child the owner does not
currently own is left untouched, keeping the container invariant of
spec section 4.3 (mutual consistency of the two references). -/
def OwnState.remove (s : OwnState) (o c : Nat) : OwnState :=
  if s.ownerOf c = some o then
    { children := fun k => if k = o then (s.children o).filter (· != c) else s.children k
      ownerOf := fun k => if k = c then none else s.ownerOf k }
  else s

/-- One append or remove operation on the container role. -/
inductive OwnOp where
  | append (o c : Nat)
  | remove (o c : Nat)

/-- Apply one container operation. -/
def OwnState.step (s : OwnState) : OwnOp → OwnState
  | OwnOp.append o c => s.append o c
  | OwnOp.remove o c => s.remove o c

/-- Run a finite sequence of container operations. -/
def OwnState.run (s : OwnState) (ops : List OwnOp) : OwnState :=
  ops.foldl OwnState.step s

/-- The round-trip ownership invariant (spec sections 4.3 and 8): a child
is listed by an owner exactly when its owner reference names that owner
(so no orphaned reference, no entry without the back-reference, and no
child in two containers), and no sequence lists a child twice. -/
def OwnState.Consistent (s : OwnState) : Prop :=
  (∀ o c, c ∈ s.children o ↔ s.ownerOf c = some o) ∧ ∀ o, (s.children o).Nodup

/-! ### Concrete models for the end-to-end scenario and for witnesses

Identifiers follow creation order: in `demoFinal` the classifiers User,
Admin, Order are 0, 1, 2, the generalization is 3, the association is 4
with member-ends 5 and 6, the diagram is 7, and the presentations are
8 (User), 9 (Admin), 10 (Order), 11 (generalization), 12 (association). -/

/-- Three classifiers: User = 0, Admin = 1, Order = 2. -/
def demoClasses : Model :=
  (((Model.init.create Kind.Class).2.create Kind.Class).2.create Kind.Class).2

/-- The `create_generalization(User, Admin)` call of the scenario. -/
def demoGenR : Except Err (Nat × Model) := demoClasses.create_generalization 0 1

/-- State after the generalization (identifier 3). -/
def demoGen : Model := stepOk demoGenR demoClasses

/-- The `create_association(User, Order)` call of the scenario. -/
def demoAssocR : Except Err (Nat × Model) := demoGen.create_association 0 2

/-- State after the association (identifier 4, ends 5 and 6). -/
def demoAssoc : Model := stepOk demoAssocR demoGen

/-- Ends named "orders" and "customer". -/
def demoNamed : Model := (demoAssoc.setName 5 "orders").setName 6 "customer"

/-- State after creating the diagram (identifier 7). -/
def demoDiag : Model := (demoNamed.create Kind.Diagram).2

/-- State after dropping User on the diagram. -/
def demoDropU : Model := stepOk (demoDiag.drop 0 7 100 50) demoDiag

/-- State after dropping Admin on the diagram. -/
def demoDropA : Model := stepOk (demoDropU.drop 1 7 100 300) demoDropU

/-- State after dropping Order on the diagram. -/
def demoDropO : Model := stepOk (demoDropA.drop 2 7 400 300) demoDropA

/-- The drop of the generalization on the diagram. -/
def demoDropGenR : Except Err (Nat × Model) := demoDropO.drop 3 7 0 0

/-- State after dropping the generalization. -/
def demoDropGen : Model := stepOk demoDropGenR demoDropO

/-- The drop of the association on the diagram. -/
def demoDropAssocR : Except Err (Nat × Model) := demoDropGen.drop 4 7 0 0

/-- Final state of the end-to-end scenario. -/
def demoFinal : Model := stepOk demoDropAssocR demoDropGen

/-- Two classifiers 0 and 1 (witness model). -/
def wClasses : Model := ((Model.init.create Kind.Class).2.create Kind.Class).2

/-- Four classifiers 0, 1, 2 and 3 (witness model). -/
def wFour : Model := ((wClasses.create Kind.Class).2.create Kind.Class).2

/-- A classifier 0 and a diagram 1 (witness model). -/
def wClassDiag : Model := ((Model.init.create Kind.Class).2.create Kind.Diagram).2

/-- `wClassDiag` after dropping the classifier on the diagram
(presentation 2). -/
def wAfterDrop : Model := stepOk (wClassDiag.drop 0 1 5 5) wClassDiag

/-- Two classifiers with an association 2 (ends 3 and 4) between them. -/
def wAssoc : Model := stepOk (wClasses.create_association 0 1) wClasses

/-- `wAssoc` plus a fresh diagram 5 with nothing dropped on it yet. -/
def wAssocDiag : Model := (wAssoc.create Kind.Diagram).2

/-- `wAssocDiag` after dropping classifier 0 on the diagram
(presentation 6). -/
def wAssocDropA : Model := stepOk (wAssocDiag.drop 0 5 1 1) wAssocDiag

/-- `wAssocDropA` after dropping classifier 1 on the diagram
(presentation 7). -/
def wAssocDropB : Model := stepOk (wAssocDropA.drop 1 5 2 2) wAssocDropA

/-! ### Basic lemmas about the store primitives -/

@[simp] theorem Model.store_addEntity (m : Model) (e : Entity) (j : Nat) :
    (m.addEntity e).store j = if j = m.nextId then some e else m.store j := rfl

@[simp] theorem Model.nextId_addEntity (m : Model) (e : Entity) :
    (m.addEntity e).nextId = m.nextId + 1 := rfl

@[simp] theorem Model.order_addEntity (m : Model) (e : Entity) :
    (m.addEntity e).order = m.order ++ [m.nextId] := rfl

@[simp] theorem Model.store_modify (m : Model) (i : Nat) (f : Entity → Entity) (j : Nat) :
    (m.modify i f).store j = if j = i then (m.store i).map f else m.store j := rfl

@[simp] theorem Model.nextId_modify (m : Model) (i : Nat) (f : Entity → Entity) :
    (m.modify i f).nextId = m.nextId := rfl

@[simp] theorem Model.order_modify (m : Model) (i : Nat) (f : Entity → Entity) :
    (m.modify i f).order = m.order := rfl

theorem Model.init_wf : Model.init.WF := by
  constructor
  · intro i h
    simp [Model.init] at h
  · intro i h
    simp [Model.init] at h

theorem Model.WF.addEntity {m : Model} (h : m.WF) (e : Entity) : (m.addEntity e).WF := by
  obtain ⟨h1, h2⟩ := h
  constructor
  · intro i hi
    simp only [Model.store_addEntity, Model.nextId_addEntity] at hi ⊢
    by_cases hc : i = m.nextId
    · omega
    · simp [hc] at hi
      exact Nat.lt_succ_of_lt (h1 i hi)
  · intro i hi
    simp only [Model.order_addEntity, List.mem_append, List.mem_singleton] at hi
    simp only [Model.nextId_addEntity]
    rcases hi with hi | hi
    · exact Nat.lt_succ_of_lt (h2 i hi)
    · omega

theorem Model.WF.modify {m : Model} (h : m.WF) (i : Nat) (f : Entity → Entity) :
    (m.modify i f).WF := by
  obtain ⟨h1, h2⟩ := h
  constructor
  · intro j hj
    simp only [Model.store_modify, Model.nextId_modify] at hj ⊢
    by_cases hc : j = i
    · subst hc
      rw [if_pos rfl] at hj
      have hs : (m.store j).isSome := by
        cases h : m.store j <;> simp [h] at hj ⊢
      exact h1 j hs
    · rw [if_neg hc] at hj
      exact h1 j hj
  · intro j hj
    simp only [Model.order_modify] at hj
    exact h2 j hj

theorem Model.WF.create {m : Model} (h : m.WF) (k : Kind) : (m.create k).2.WF :=
  h.addEntity _

theorem Model.WF.setName {m : Model} (h : m.WF) (i : Nat) (s : String) :
    (m.setName i s).WF := h.modify _ _

/-! ### Ownership container consistency -/

theorem OwnState.consistent_init : OwnState.init.Consistent := by
  constructor
  · intro o c
    simp [OwnState.init]
  · intro o
    simp [OwnState.init]

theorem mem_filter_ne {l : List Nat} {x c : Nat} :
    (x ∈ l.filter (· != c)) ↔ x ∈ l ∧ x ≠ c := by
  simp [List.mem_filter]

/-- Consistency of the post-`append` state, abstracted over the member
sequences `C` left after the ownership-transfer removal. -/
theorem consistent_append_aux (s : OwnState) (o c : Nat) (C : Nat → List Nat)
    (hC1 : ∀ k x, x ≠ c → (x ∈ C k ↔ s.ownerOf x = some k))
    (hC2 : ∀ k, c ∉ C k) (hC3 : ∀ k, (C k).Nodup) :
    OwnState.Consistent
      { children := fun k => if k = o then C o ++ [c] else C k
        ownerOf := fun k => if k = c then some o else s.ownerOf k } := by
  constructor
  · intro k x
    dsimp only
    by_cases hx : x = c
    · subst hx
      rw [if_pos rfl]
      by_cases hk : k = o
      · subst hk
        rw [if_pos rfl]
        simp [List.mem_append]
      · rw [if_neg hk]
        constructor
        · intro hm
          exact absurd hm (hC2 k)
        · intro hm
          injection hm with hm
          exact absurd hm.symm hk
    · rw [if_neg hx]
      by_cases hk : k = o
      · subst hk
        rw [if_pos rfl, List.mem_append]
        simp only [List.mem_singleton]
        rw [hC1 k x hx]
        constructor
        · rintro (hm | hm)
          · exact hm
          · exact absurd hm hx
        · intro hm
          exact Or.inl hm
      · rw [if_neg hk]
        exact hC1 k x hx
  · intro k
    dsimp only
    by_cases hk : k = o
    · subst hk
      rw [if_pos rfl]
      refine List.Nodup.append (hC3 k) (List.nodup_singleton c) ?_
      intro x hxm hxs
      simp only [List.mem_singleton] at hxs
      subst hxs
      exact hC2 k hxm
    · rw [if_neg hk]
      exact hC3 k

theorem OwnState.Consistent.append {s : OwnState} (h : s.Consistent) (o c : Nat) :
    (s.append o c).Consistent := by
  obtain ⟨hmem, hnd⟩ := h
  cases hoc : s.ownerOf c with
  | none =>
    have hgoal := consistent_append_aux s o c s.children
      (fun k x _ => hmem k x)
      (fun k hm => by
        have := (hmem k c).1 hm
        rw [hoc] at this
        exact Option.noConfusion this)
      hnd
    simpa only [OwnState.append, hoc] using hgoal
  | some p =>
    have hC1 : ∀ k x, x ≠ c →
        ((x ∈ if k = p then (s.children p).filter (· != c) else s.children k) ↔
          s.ownerOf x = some k) := by
      intro k x hx
      by_cases hkp : k = p
      · subst hkp
        rw [if_pos rfl, mem_filter_ne]
        constructor
        · intro hm
          exact (hmem k x).1 hm.1
        · intro hm
          exact ⟨(hmem k x).2 hm, hx⟩
      · rw [if_neg hkp]
        exact hmem k x
    have hC2 : ∀ k, c ∉ (if k = p then (s.children p).filter (· != c) else s.children k) := by
      intro k hm
      by_cases hkp : k = p
      · subst hkp
        rw [if_pos rfl, mem_filter_ne] at hm
        exact hm.2 rfl
      · rw [if_neg hkp] at hm
        have := (hmem k c).1 hm
        rw [hoc] at this
        injection this with this
        exact hkp this.symm
    have hC3 : ∀ k, ((if k = p then (s.children p).filter (· != c) else s.children k)).Nodup := by
      intro k
      by_cases hkp : k = p
      · subst hkp
        rw [if_pos rfl]
        exact (hnd _).filter _
      · rw [if_neg hkp]
        exact hnd k
    have hgoal := consistent_append_aux s o c _ hC1 hC2 hC3
    simpa only [OwnState.append, hoc] using hgoal

theorem OwnState.Consistent.remove {s : OwnState} (h : s.Consistent) (o c : Nat) :
    (s.remove o c).Consistent := by
  obtain ⟨hmem, hnd⟩ := h
  unfold OwnState.remove
  by_cases hoc : s.ownerOf c = some o
  · rw [if_pos hoc]
    constructor
    · intro k x
      dsimp only
      by_cases hx : x = c
      · subst hx
        rw [if_pos rfl]
        constructor
        · intro hm
          by_cases hk : k = o
          · subst hk
            rw [if_pos rfl, mem_filter_ne] at hm
            exact absurd rfl hm.2
          · rw [if_neg hk] at hm
            have := (hmem k x).1 hm
            rw [hoc] at this
            injection this with this
            exact absurd this.symm hk
        · intro hm
          exact Option.noConfusion hm
      · rw [if_neg hx]
        by_cases hk : k = o
        · subst hk
          rw [if_pos rfl, mem_filter_ne]
          constructor
          · intro hm
            exact (hmem k x).1 hm.1
          · intro hm
            exact ⟨(hmem k x).2 hm, hx⟩
        · rw [if_neg hk]
          exact hmem k x
    · intro k
      dsimp only
      by_cases hk : k = o
      · subst hk
        rw [if_pos rfl]
        exact (hnd k).filter _
      · rw [if_neg hk]
        exact hnd k
  · rw [if_neg hoc]
    exact ⟨hmem, hnd⟩

theorem OwnState.Consistent.step {s : OwnState} (h : s.Consistent) (op : OwnOp) :
    (s.step op).Consistent := by
  cases op with
  | append o c => exact h.append o c
  | remove o c => exact h.remove o c

theorem OwnState.Consistent.run {s : OwnState} (h : s.Consistent) (ops : List OwnOp) :
    (s.run ops).Consistent := by
  induction ops generalizing s with
  | nil => exact h
  | cons op rest ih => exact ih (h.step op)

/-- After any `append o c` the child's owner reference is the new owner. -/
theorem OwnState.ownerOf_append (s : OwnState) (o c : Nat) :
    (s.append o c).ownerOf c = some o := by
  simp [OwnState.append]

/-- C5: for every finite sequence of append/remove operations on an
ownership container, the resulting state is round-trip consistent: a child
is listed by an owner exactly when its owner reference names that owner
(so no orphans, no entry without the back-reference, no child listed under
two owners) and no sequence lists a child twice; moreover, after an
`append o c` the child `c` is listed by exactly the new owner `o`, the
prior owner's sequence no longer listing it. -/
theorem ownership_round_trip (ops : List OwnOp) :
    (OwnState.init.run ops).Consistent ∧
      ∀ o c k, c ∈ ((OwnState.init.run ops).append o c).children k ↔ k = o := by
  have hcons : (OwnState.init.run ops).Consistent :=
    OwnState.consistent_init.run ops
  refine ⟨hcons, ?_⟩
  intro o c k
  have happ : ((OwnState.init.run ops).append o c).Consistent := hcons.append o c
  rw [happ.1 k c, OwnState.ownerOf_append]
  constructor
  · intro hm
    injection hm with hm
    exact hm.symm
  · intro hm
    subst hm
    rfl

/-! ### Renaming preserves the association structure -/

theorem Model.memberEndOf_setName (m : Model) (i : Nat) (s : String) (j : Nat) :
    (m.setName i s).memberEndOf j = m.memberEndOf j := by
  unfold Model.setName Model.memberEndOf
  simp only [Model.store_modify]
  by_cases hj : j = i
  · subst hj
    rw [if_pos rfl]
    cases m.store j <;> rfl
  · rw [if_neg hj]

theorem Model.endType_setName (m : Model) (i : Nat) (s : String) (j : Nat) :
    (m.setName i s).endType j = m.endType j := by
  unfold Model.setName Model.endType
  simp only [Model.store_modify]
  by_cases hj : j = i
  · subst hj
    rw [if_pos rfl]
    cases m.store j <;> rfl
  · rw [if_neg hj]

@[simp] theorem applyRenames_nil (m : Model) : applyRenames m [] = m := rfl

theorem applyRenames_cons (m : Model) (r : Nat × String) (rs : List (Nat × String)) :
    applyRenames m (r :: rs) = applyRenames (m.setName r.1 r.2) rs := rfl

theorem Model.memberEndOf_applyRenames (rs : List (Nat × String)) (m : Model) (j : Nat) :
    (applyRenames m rs).memberEndOf j = m.memberEndOf j := by
  induction rs generalizing m with
  | nil => rfl
  | cons r rest ih =>
    rw [applyRenames_cons, ih, Model.memberEndOf_setName]

theorem Model.endType_applyRenames (rs : List (Nat × String)) (m : Model) (j : Nat) :
    (applyRenames m rs).endType j = m.endType j := by
  induction rs generalizing m with
  | nil => rfl
  | cons r rest ih =>
    rw [applyRenames_cons, ih, Model.endType_setName]

/-- C9: a freshly created entity starts with its owned collections empty:
right after `create(Class)` the class's `ownedAttribute` and
`ownedOperation` have length 0, and right after `create(Diagram)` the
diagram's `ownedPresentation` has length 0. -/
theorem create_starts_empty (m : Model) :
    ((m.create Kind.Class).2.ownedAttributeOf (m.create Kind.Class).1).length = 0 ∧
    ((m.create Kind.Class).2.ownedOperationOf (m.create Kind.Class).1).length = 0 ∧
    ((m.create Kind.Diagram).2.ownedPresentationOf (m.create Kind.Diagram).1).length = 0 := by
  refine ⟨?_, ?_, ?_⟩ <;>
    simp [Model.create, Model.ownedAttributeOf, Model.ownedOperationOf,
      Model.ownedPresentationOf]

/-- C1: `create_association(a, b)` on two Classifier-kind entities returns
an Association with exactly 2 member-ends, the first typed to `a` and the
second to `b` (argument order), and this persists under any later sequence
of renamings. -/
theorem create_association_member_ends (m : Model) (a b : Nat) (ea eb : Entity)
    (ha : m.store a = some ea) (hb : m.store b = some eb)
    (hca : isClassifier ea = true) (hcb : isClassifier eb = true)
    (renames : List (Nat × String)) :
    ∃ m', m.create_association a b = Except.ok (m.nextId, m') ∧
      (applyRenames m' renames).memberEndOf m.nextId = [m.nextId + 1, m.nextId + 2] ∧
      ((applyRenames m' renames).memberEndOf m.nextId).length = 2 ∧
      (applyRenames m' renames).endType (m.nextId + 1) = some a ∧
      (applyRenames m' renames).endType (m.nextId + 2) = some b := by
  have h01 : ¬ (m.nextId = m.nextId + 1) := by omega
  have h02 : ¬ (m.nextId = m.nextId + 1 + 1) := by omega
  have h10 : ¬ (m.nextId + 1 = m.nextId) := by omega
  have h12 : ¬ (m.nextId + 1 = m.nextId + 1 + 1) := by omega
  have h20 : ¬ (m.nextId + 1 + 1 = m.nextId) := by omega
  have h21 : ¬ (m.nextId + 1 + 1 = m.nextId + 1) := by omega
  have g02 : ¬ (m.nextId = m.nextId + 2) := by omega
  have g20 : ¬ (m.nextId + 2 = m.nextId) := by omega
  have g21 : ¬ (m.nextId + 2 = m.nextId + 1) := by omega
  have g12 : ¬ (m.nextId + 1 = m.nextId + 2) := by omega
  unfold Model.create_association
  rw [ha, hb]
  simp only [hca, hcb, Bool.and_self, if_true]
  refine ⟨_, rfl, ?_, ?_, ?_, ?_⟩
  · rw [Model.memberEndOf_applyRenames]
    simp [Model.memberEndOf, h01, h02, h10, h12, h20, h21, g02, g20, g21, g12]
  · rw [Model.memberEndOf_applyRenames]
    simp [Model.memberEndOf, h01, h02, h10, h12, h20, h21, g02, g20, g21, g12]
  · rw [Model.endType_applyRenames]
    simp [Model.endType, h01, h02, h10, h12, h20, h21, g02, g20, g21, g12]
  · rw [Model.endType_applyRenames]
    simp [Model.endType, h01, h02, h10, h12, h20, h21, g02, g20, g21, g12]

/-- C1 witness: two classifiers 0 and 1, a rename of 0 afterwards. -/
theorem create_association_member_ends_witness :
    ∃ m', wClasses.create_association 0 1 = Except.ok (wClasses.nextId, m') ∧
      (applyRenames m' [(0, "Renamed")]).memberEndOf wClasses.nextId =
        [wClasses.nextId + 1, wClasses.nextId + 2] ∧
      ((applyRenames m' [(0, "Renamed")]).memberEndOf wClasses.nextId).length = 2 ∧
      (applyRenames m' [(0, "Renamed")]).endType (wClasses.nextId + 1) = some 0 ∧
      (applyRenames m' [(0, "Renamed")]).endType (wClasses.nextId + 2) = some 1 :=
  create_association_member_ends wClasses 0 1 { kind := Kind.Class } { kind := Kind.Class }
    rfl rfl rfl rfl [(0, "Renamed")]

/-! ### Generalization bidirectionality -/

theorem Model.mem_specificOf {m : Model} {k x : Nat} :
    x ∈ m.specificOf k ↔ ∃ ek, m.store k = some ek ∧ x ∈ ek.specificC := by
  unfold Model.specificOf
  cases h : m.store k <;> simp [h]

theorem Model.mem_generalOf {m : Model} {k x : Nat} :
    x ∈ m.generalOf k ↔ ∃ ek, m.store k = some ek ∧ x ∈ ek.generalC := by
  unfold Model.generalOf
  cases h : m.store k <;> simp [h]

/-- A `create_generalization` step either fails (leaving the store as is)
or produces exactly the add-and-two-inserts state. -/
theorem Model.genStep_cases (m : Model) (q : Nat × Nat) :
    m.genStep q = m ∨
    m.genStep q =
      ((m.addEntity
            { kind := Kind.Generalization, general := some q.1, specific := some q.2 }).modify
          q.1 fun e => { e with specificC := e.specificC ++ [q.2] }).modify
        q.2 fun e => { e with generalC := e.generalC ++ [q.1] } := by
  unfold Model.genStep Model.create_generalization
  cases hg : m.store q.1 with
  | none => left; rfl
  | some eg =>
    cases hs : m.store q.2 with
    | none => left; rfl
    | some es =>
      by_cases hcl : (isClassifier eg && isClassifier es) = true
      · right
        dsimp only
        rw [if_pos hcl]
      · left
        dsimp only
        rw [if_neg hcl]

theorem Model.WF.genStep {m : Model} (h : m.WF) (q : Nat × Nat) : (m.genStep q).WF := by
  rcases Model.genStep_cases m q with heq | heq
  · rw [heq]
    exact h
  · rw [heq]
    exact ((h.addEntity _).modify _ _).modify _ _

/-- A `create_generalization` step never shrinks a classifier's
`general`/`specific` back-reference collections. -/
theorem Model.genStep_store_mono (m : Model) (q : Nat × Nat) (k : Nat) (ek : Entity)
    (hek : m.store k = some ek) (hkn : ¬ (k = m.nextId)) :
    ∃ ek', (m.genStep q).store k = some ek' ∧
      ek.specificC ⊆ ek'.specificC ∧ ek.generalC ⊆ ek'.generalC := by
  rcases Model.genStep_cases m q with heq | heq
  · rw [heq]
    exact ⟨ek, hek, List.Subset.refl _, List.Subset.refl _⟩
  · rw [heq]
    simp only [Model.store_modify, Model.store_addEntity, Model.nextId_addEntity]
    by_cases hk2 : k = q.2
    · rw [if_pos hk2]
      by_cases h21 : q.2 = q.1
      · rw [if_pos h21, if_neg (show ¬ (q.1 = m.nextId) by omega)]
        rw [show q.1 = k by omega, hek]
        refine ⟨_, rfl, ?_, ?_⟩
        · dsimp only
          exact List.subset_append_left _ _
        · dsimp only
          exact List.subset_append_left _ _
      · rw [if_neg h21, if_neg (show ¬ (q.2 = m.nextId) by omega)]
        rw [show q.2 = k by omega, hek]
        refine ⟨_, rfl, ?_, ?_⟩
        · dsimp only
          exact List.Subset.refl _
        · dsimp only
          exact List.subset_append_left _ _
    · rw [if_neg hk2]
      by_cases hk1 : k = q.1
      · rw [if_pos hk1, if_neg (show ¬ (q.1 = m.nextId) by omega)]
        rw [show q.1 = k by omega, hek]
        refine ⟨_, rfl, ?_, ?_⟩
        · dsimp only
          exact List.subset_append_left _ _
        · dsimp only
          exact List.Subset.refl _
      · rw [if_neg hk1, if_neg hkn, hek]
        exact ⟨ek, rfl, List.Subset.refl _, List.Subset.refl _⟩

theorem Model.genStep_mono_specific {m : Model} (hWF : m.WF) (q : Nat × Nat) {k x : Nat}
    (hx : x ∈ m.specificOf k) : x ∈ (m.genStep q).specificOf k := by
  obtain ⟨ek, hek, hxk⟩ := Model.mem_specificOf.1 hx
  have hklt : k < m.nextId := hWF.1 k (by rw [hek]; rfl)
  obtain ⟨ek', hek', hsub, _⟩ := Model.genStep_store_mono m q k ek hek (by omega)
  exact Model.mem_specificOf.2 ⟨ek', hek', hsub hxk⟩

theorem Model.genStep_mono_general {m : Model} (hWF : m.WF) (q : Nat × Nat) {k x : Nat}
    (hx : x ∈ m.generalOf k) : x ∈ (m.genStep q).generalOf k := by
  obtain ⟨ek, hek, hxk⟩ := Model.mem_generalOf.1 hx
  have hklt : k < m.nextId := hWF.1 k (by rw [hek]; rfl)
  obtain ⟨ek', hek', _, hsub⟩ := Model.genStep_store_mono m q k ek hek (by omega)
  exact Model.mem_generalOf.2 ⟨ek', hek', hsub hxk⟩

theorem Model.genMany_cons (m : Model) (q : Nat × Nat) (qs : List (Nat × Nat)) :
    m.genMany (q :: qs) = (m.genStep q).genMany qs := rfl

theorem Model.genMany_mono_specific {m : Model} (hWF : m.WF) (qs : List (Nat × Nat))
    {k x : Nat} (hx : x ∈ m.specificOf k) : x ∈ (m.genMany qs).specificOf k := by
  induction qs generalizing m with
  | nil => exact hx
  | cons q rest ih =>
    rw [Model.genMany_cons]
    exact ih (hWF.genStep q) (Model.genStep_mono_specific hWF q hx)

theorem Model.genMany_mono_general {m : Model} (hWF : m.WF) (qs : List (Nat × Nat))
    {k x : Nat} (hx : x ∈ m.generalOf k) : x ∈ (m.genMany qs).generalOf k := by
  induction qs generalizing m with
  | nil => exact hx
  | cons q rest ih =>
    rw [Model.genMany_cons]
    exact ih (hWF.genStep q) (Model.genStep_mono_general hWF q hx)

/-- C2: after `create_generalization(p, c)` on two Classifiers, `c` is in
`p.specific` and `p` is in `c.general`, and both memberships persist after
any number of subsequent `create_generalization` calls on other, unrelated
pairs. -/
theorem create_generalization_bidirectional (m : Model) (p c : Nat) (ep ec : Entity)
    (hWF : m.WF) (hp : m.store p = some ep) (hc : m.store c = some ec)
    (hkp : isClassifier ep = true) (hkc : isClassifier ec = true)
    (others : List (Nat × Nat))
    (hunrel : ∀ q ∈ others, q.1 ≠ p ∧ q.1 ≠ c ∧ q.2 ≠ p ∧ q.2 ≠ c) :
    ∃ m₁, m.create_generalization p c = Except.ok (m.nextId, m₁) ∧
      c ∈ m₁.specificOf p ∧ p ∈ m₁.generalOf c ∧
      c ∈ (m₁.genMany others).specificOf p ∧ p ∈ (m₁.genMany others).generalOf c := by
  have hplt : p < m.nextId := hWF.1 p (by rw [hp]; rfl)
  have hclt : c < m.nextId := hWF.1 c (by rw [hc]; rfl)
  set M : Model :=
    ((m.addEntity { kind := Kind.Generalization, general := some p, specific := some c }).modify
        p fun e => { e with specificC := e.specificC ++ [c] }).modify
      c fun e => { e with generalC := e.generalC ++ [p] } with hMdef
  have hWFM : M.WF := ((hWF.addEntity _).modify _ _).modify _ _
  have hm1 : c ∈ M.specificOf p := by
    rw [Model.mem_specificOf, hMdef]
    simp only [Model.store_modify, Model.store_addEntity, Model.nextId_addEntity,
      eq_self_iff_true, if_true]
    by_cases hpc : p = c
    · rw [if_pos hpc, if_pos hpc.symm, if_neg (show ¬ (p = m.nextId) by omega), hp]
      refine ⟨_, rfl, ?_⟩
      dsimp only
      simp
    · rw [if_neg hpc, if_neg (show ¬ (p = m.nextId) by omega), hp]
      refine ⟨_, rfl, ?_⟩
      dsimp only
      simp
  have hm2 : p ∈ M.generalOf c := by
    rw [Model.mem_generalOf, hMdef]
    simp only [Model.store_modify, Model.store_addEntity, Model.nextId_addEntity,
      eq_self_iff_true, if_true]
    by_cases hcp : c = p
    · rw [if_pos hcp, if_neg (show ¬ (p = m.nextId) by omega), hp]
      refine ⟨_, rfl, ?_⟩
      dsimp only
      simp
    · rw [if_neg hcp, if_neg (show ¬ (c = m.nextId) by omega), hc]
      refine ⟨_, rfl, ?_⟩
      dsimp only
      simp
  refine ⟨M, ?_, hm1, hm2, Model.genMany_mono_specific hWFM others hm1,
    Model.genMany_mono_general hWFM others hm2⟩
  unfold Model.create_generalization
  rw [hp, hc]
  dsimp only
  rw [if_pos (show (isClassifier ep && isClassifier ec) = true by rw [hkp, hkc]; rfl)]

/-! ### Diagram projection -/

theorem Model.store_nextId_none {m : Model} (hWF : m.WF) : m.store m.nextId = none := by
  cases h : m.store m.nextId with
  | none => rfl
  | some e => exact absurd (hWF.1 _ (by rw [h]; rfl)) (lt_irrefl _)

/-- C3: dropping a relationship on a diagram fails with PreconditionFailed
when an endpoint has no Presentation on that diagram, and the failed call
leaves the store (in particular the diagram's `ownedPresentation`)
unchanged. -/
theorem drop_relationship_missing_endpoint (m : Model) (r d : Nat) (er ed : Entity)
    (x y : Int) (hr : m.store r = some er) (hd : m.store d = some ed)
    (hrel : isRelationship er = true) (hdk : ed.kind = Kind.Diagram)
    (a b : Nat) (hends : m.endpointsOf er = some (a, b))
    (hmiss : m.hasPresentationOn a d = false ∨ m.hasPresentationOn b d = false) :
    (m.dropRun r d x y).1 = Except.error Err.PreconditionFailed ∧
      (m.dropRun r d x y).2 = m ∧
      (m.dropRun r d x y).2.ownedPresentationOf d = m.ownedPresentationOf d := by
  have hdrop : m.drop r d x y = Except.error Err.PreconditionFailed := by
    unfold Model.drop
    rw [hr, hd]
    dsimp only
    rw [if_pos hrel, hends]
    dsimp only
    rcases hmiss with hm | hm
    · unfold Model.hasPresentationOn at hm
      cases hfa : m.findPresentationOn d a with
      | none => rfl
      | some pa => rw [hfa] at hm; simp at hm
    · unfold Model.hasPresentationOn at hm
      cases hfb : m.findPresentationOn d b with
      | none =>
        cases hfa : m.findPresentationOn d a with
        | none => rfl
        | some pa => rfl
      | some pb => rw [hfb] at hm; simp at hm
  have hrun : m.dropRun r d x y = (Except.error Err.PreconditionFailed, m) := by
    unfold Model.dropRun
    rw [hdrop]
  rw [hrun]
  exact ⟨rfl, rfl, rfl⟩

/-- C4: dropping a relationship whose two endpoints each already have a
Presentation on diagram `d` succeeds; the created Presentation is owned by
`d`, references the relationship, and records both endpoint Presentations,
and it is appended to `d.ownedPresentation`. -/
theorem drop_relationship_connects (m : Model) (r d : Nat) (er ed : Entity) (x y : Int)
    (hWF : m.WF) (hr : m.store r = some er) (hd : m.store d = some ed)
    (hrel : isRelationship er = true) (hdk : ed.kind = Kind.Diagram)
    (a b pa pb : Nat) (hends : m.endpointsOf er = some (a, b))
    (hpa : m.findPresentationOn d a = some pa) (hpb : m.findPresentationOn d b = some pb) :
    ∃ m' pres, m.drop r d x y = Except.ok (m.nextId, m') ∧
      m'.store m.nextId = some pres ∧
      pres.kind = Kind.Presentation ∧ pres.subject = some r ∧ pres.diagram = some d ∧
      pres.endpoint0 = some pa ∧ pres.endpoint1 = some pb ∧
      m'.ownedPresentationOf d = m.ownedPresentationOf d ++ [m.nextId] := by
  have hrlt : r < m.nextId := hWF.1 r (by rw [hr]; rfl)
  have hdlt : d < m.nextId := hWF.1 d (by rw [hd]; rfl)
  have hdr : ¬ (d = r) := by
    intro h
    rw [h, hr] at hd
    injection hd with hd
    have hk : er.kind = Kind.Diagram := by rw [hd]; exact hdk
    unfold isRelationship at hrel
    rw [hk] at hrel
    simp at hrel
  set M : Model :=
    ((m.addEntity
          { kind := Kind.Presentation, diagram := some d, subject := some r,
            posX := x, posY := y, endpoint0 := some pa, endpoint1 := some pb }).modify
        d fun de => { de with ownedPresentation := de.ownedPresentation ++ [m.nextId] }).modify
      r fun ee => { ee with presentation := ee.presentation ++ [m.nextId] } with hMdef
  refine ⟨M,
    { kind := Kind.Presentation, diagram := some d, subject := some r,
      posX := x, posY := y, endpoint0 := some pa, endpoint1 := some pb },
    ?_, ?_, rfl, rfl, rfl, rfl, rfl, ?_⟩
  · unfold Model.drop
    rw [hr, hd]
    dsimp only
    rw [if_pos hrel, hends]
    dsimp only
    rw [hpa, hpb]
  · rw [hMdef]
    simp only [Model.store_modify, Model.store_addEntity, Model.nextId_addEntity]
    rw [if_neg (show ¬ (m.nextId = r) by omega), if_neg (show ¬ (m.nextId = d) by omega)]
    simp
  · rw [hMdef]
    unfold Model.ownedPresentationOf
    simp only [Model.store_modify, Model.store_addEntity, Model.nextId_addEntity,
      eq_self_iff_true, if_true]
    rw [if_neg hdr, if_neg (show ¬ (d = m.nextId) by omega), hd]
    rfl

/-- C10: dropping a plain (non-relationship) entity with no prior
Presentations on a diagram succeeds; the returned Presentation is the very
object registered in both collections: it is appended to
`d.ownedPresentation` and `e.presentation` becomes exactly that one
Presentation. -/
theorem drop_plain_registers (m : Model) (e d : Nat) (ee ed : Entity) (x y : Int)
    (hWF : m.WF) (he : m.store e = some ee) (hd : m.store d = some ed)
    (hplain : isRelationship ee = false) (hdk : ed.kind = Kind.Diagram)
    (hnone : m.presentationOf e = []) :
    ∃ m' pres, m.drop e d x y = Except.ok (m.nextId, m') ∧
      m'.store m.nextId = some pres ∧ pres.kind = Kind.Presentation ∧
      pres.subject = some e ∧ pres.diagram = some d ∧
      m'.ownedPresentationOf d = m.ownedPresentationOf d ++ [m.nextId] ∧
      m'.presentationOf e = [m.nextId] := by
  have helt : e < m.nextId := hWF.1 e (by rw [he]; rfl)
  have hdlt : d < m.nextId := hWF.1 d (by rw [hd]; rfl)
  have hpe : ee.presentation = [] := by
    unfold Model.presentationOf at hnone
    rw [he] at hnone
    simpa using hnone
  set M : Model :=
    ((m.addEntity
          { kind := Kind.Presentation, diagram := some d, subject := some e,
            posX := x, posY := y }).modify
        d fun de => { de with ownedPresentation := de.ownedPresentation ++ [m.nextId] }).modify
      e fun ee => { ee with presentation := ee.presentation ++ [m.nextId] } with hMdef
  refine ⟨M,
    { kind := Kind.Presentation, diagram := some d, subject := some e, posX := x, posY := y },
    ?_, ?_, rfl, rfl, rfl, ?_, ?_⟩
  · unfold Model.drop
    rw [he, hd]
    dsimp only
    rw [if_neg (show ¬ (isRelationship ee = true) by rw [hplain]; simp)]
  · rw [hMdef]
    simp only [Model.store_modify, Model.store_addEntity, Model.nextId_addEntity]
    rw [if_neg (show ¬ (m.nextId = e) by omega), if_neg (show ¬ (m.nextId = d) by omega)]
    simp
  · rw [hMdef]
    unfold Model.ownedPresentationOf
    simp only [Model.store_modify, Model.store_addEntity, Model.nextId_addEntity,
      eq_self_iff_true, if_true]
    by_cases hde : d = e
    · rw [if_pos hde, if_pos hde.symm, if_neg (show ¬ (d = m.nextId) by omega), hd]
      rfl
    · rw [if_neg hde, if_neg (show ¬ (d = m.nextId) by omega), hd]
      rfl
  · rw [hMdef]
    unfold Model.presentationOf
    simp only [Model.store_modify, Model.store_addEntity, Model.nextId_addEntity,
      eq_self_iff_true, if_true]
    by_cases hed : e = d
    · rw [if_pos hed, if_neg (show ¬ (d = m.nextId) by omega), hd]
      have heed : ed = ee := by
        rw [hed, hd] at he
        injection he
      simp [heed, hpe]
    · rw [if_neg hed, if_neg (show ¬ (e = m.nextId) by omega), he]
      simp [hpe]

/-- C6: if entity `e` (with no earlier Presentations) has been dropped once
on diagram `d`, a second drop of `e` on `d` succeeds, yields a Presentation
with a different identifier, and afterwards `e.presentation` holds exactly
the two Presentations. -/
theorem drop_same_twice_distinct (m : Model) (e d : Nat) (ee ed : Entity)
    (x₁ y₁ x₂ y₂ : Int) (hWF : m.WF) (he : m.store e = some ee) (hd : m.store d = some ed)
    (hdk : ed.kind = Kind.Diagram)
    (hnone : m.presentationOf e = [])
    (p₁ : Nat) (m₁ : Model) (h₁ : m.drop e d x₁ y₁ = Except.ok (p₁, m₁)) :
    ∃ p₂ m₂, m₁.drop e d x₂ y₂ = Except.ok (p₂, m₂) ∧ p₂ ≠ p₁ ∧
      m₂.presentationOf e = [p₁, p₂] := by
  have helt : e < m.nextId := hWF.1 e (by rw [he]; rfl)
  have hdlt : d < m.nextId := hWF.1 d (by rw [hd]; rfl)
  have hsn : m.store m.nextId = none := Model.store_nextId_none hWF
  have hpe : ee.presentation = [] := by
    unfold Model.presentationOf at hnone
    rw [he] at hnone
    simpa using hnone
  unfold Model.drop at h₁
  rw [he, hd] at h₁
  dsimp only at h₁
  by_cases hrel : isRelationship ee = true
  · have hed : ¬ (e = d) := by
      intro h
      rw [h, hd] at he
      injection he with he
      unfold isRelationship at hrel
      rw [← he, hdk] at hrel
      simp at hrel
    rw [if_pos hrel] at h₁
    cases hep : m.endpointsOf ee with
    | none => rw [hep] at h₁; simp at h₁
    | some ab =>
      obtain ⟨a, b⟩ := ab
      rw [hep] at h₁
      dsimp only at h₁
      cases hfa : m.findPresentationOn d a with
      | none => rw [hfa] at h₁; simp at h₁
      | some pa =>
        cases hfb : m.findPresentationOn d b with
        | none => rw [hfa, hfb] at h₁; simp at h₁
        | some pb =>
          rw [hfa, hfb] at h₁
          dsimp only at h₁
          simp only [Except.ok.injEq, Prod.mk.injEq] at h₁
          obtain ⟨hp₁, hm₁⟩ := h₁
          subst hp₁
          subst hm₁
          set M₁ : Model :=
            ((m.addEntity
                  { kind := Kind.Presentation, diagram := some d, subject := some e,
                    posX := x₁, posY := y₁, endpoint0 := some pa,
                    endpoint1 := some pb }).modify
                d fun de =>
                  { de with ownedPresentation := de.ownedPresentation ++ [m.nextId] }).modify
              e fun ee => { ee with presentation := ee.presentation ++ [m.nextId] } with hM₁def
          have hse : M₁.store e =
              some { ee with presentation := ee.presentation ++ [m.nextId] } := by
            rw [hM₁def]
            simp only [Model.store_modify, Model.store_addEntity, Model.nextId_addEntity,
              eq_self_iff_true, if_true]
            rw [if_neg hed, if_neg (show ¬ (e = m.nextId) by omega), he]
            rfl
          have hsd : M₁.store d =
              some { ed with ownedPresentation := ed.ownedPresentation ++ [m.nextId] } := by
            rw [hM₁def]
            simp only [Model.store_modify, Model.store_addEntity, Model.nextId_addEntity,
              eq_self_iff_true, if_true]
            rw [if_neg (show ¬ (d = e) from fun h => hed h.symm),
              if_neg (show ¬ (d = m.nextId) by omega), hd]
            rfl
          have hnext : M₁.nextId = m.nextId + 1 := by rw [hM₁def]; rfl
          have hET : ∀ j, (M₁.store j).bind Entity.type = (m.store j).bind Entity.type := by
            intro j
            rw [hM₁def]
            by_cases hje : j = e
            · subst hje
              simp only [Model.store_modify, Model.store_addEntity, Model.nextId_addEntity,
                eq_self_iff_true, if_true]
              rw [if_neg hed, if_neg (show ¬ (j = m.nextId) by omega), he]
              rfl
            · by_cases hjd : j = d
              · subst hjd
                simp only [Model.store_modify, Model.store_addEntity, Model.nextId_addEntity,
                  eq_self_iff_true, if_true]
                rw [if_neg hje, if_neg (show ¬ (j = m.nextId) by omega), hd]
                rfl
              · by_cases hjn : j = m.nextId
                · subst hjn
                  simp only [Model.store_modify, Model.store_addEntity,
                    Model.nextId_addEntity, eq_self_iff_true, if_true]
                  rw [if_neg hje, if_neg hjd, hsn]
                  rfl
                · simp only [Model.store_modify, Model.store_addEntity,
                    Model.nextId_addEntity]
                  rw [if_neg hje, if_neg hjd, if_neg hjn]
          have hSubj : ∀ j, ¬ (j = m.nextId) →
              (M₁.store j).map Entity.subject = (m.store j).map Entity.subject := by
            intro j hjn
            rw [hM₁def]
            by_cases hje : j = e
            · subst hje
              simp only [Model.store_modify, Model.store_addEntity, Model.nextId_addEntity,
                eq_self_iff_true, if_true]
              rw [if_neg hed, if_neg hjn, he]
              rfl
            · by_cases hjd : j = d
              · subst hjd
                simp only [Model.store_modify, Model.store_addEntity, Model.nextId_addEntity,
                  eq_self_iff_true, if_true]
                rw [if_neg hje, if_neg hjn, hd]
                rfl
              · simp only [Model.store_modify, Model.store_addEntity, Model.nextId_addEntity]
                rw [if_neg hje, if_neg hjd, if_neg hjn]
          have hep' : M₁.endpointsOf
              { ee with presentation := ee.presentation ++ [m.nextId] } = some (a, b) := by
            rw [← hep]
            unfold Model.endpointsOf
            dsimp only
            cases ee.kind
            case Association =>
              cases ee.memberEnd with
              | nil => rfl
              | cons e0 t =>
                cases t with
                | nil => rfl
                | cons e1 t2 =>
                  cases t2 with
                  | nil => simp only [hET]
                  | cons u v => rfl
            all_goals rfl
          have hfind : ∀ s ps, m.findPresentationOn d s = some ps →
              (M₁.findPresentationOn d s).isSome := by
            intro s ps hfs
            unfold Model.findPresentationOn at hfs ⊢
            rw [hd] at hfs
            rw [hsd]
            have hmem := List.mem_of_find?_eq_some hfs
            have hpred := List.find?_some hfs
            rw [List.find?_isSome]
            refine ⟨ps, by simp [List.mem_append, hmem], ?_⟩
            cases hsp : m.store ps with
            | none => rw [hsp] at hpred; simp at hpred
            | some pp =>
              rw [hsp] at hpred
              have hps_lt : ps < m.nextId := hWF.1 ps (by rw [hsp]; rfl)
              have hsubj := hSubj ps (by omega)
              cases hsp' : M₁.store ps with
              | none => rw [hsp', hsp] at hsubj; simp at hsubj
              | some pp' =>
                rw [hsp', hsp] at hsubj
                simp only [Option.map_some'] at hsubj
                injection hsubj with hsubj
                dsimp only
                rw [hsubj]
                exact hpred
          obtain ⟨pa2, hpa2⟩ := Option.isSome_iff_exists.1 (hfind a pa hfa)
          obtain ⟨pb2, hpb2⟩ := Option.isSome_iff_exists.1 (hfind b pb hfb)
          unfold Model.drop
          rw [hse, hsd]
          dsimp only
          rw [if_pos (show isRelationship
            { ee with presentation := ee.presentation ++ [m.nextId] } = true from hrel)]
          rw [show M₁.endpointsOf
            { ee with presentation := ee.presentation ++ [m.nextId] } = some (a, b)
            from hep']
          dsimp only
          rw [hpa2, hpb2]
          dsimp only
          rw [hnext]
          refine ⟨m.nextId + 1, _, rfl, ?_, ?_⟩
          · omega
          · unfold Model.presentationOf
            simp only [Model.store_modify, Model.store_addEntity, Model.nextId_addEntity,
              Model.nextId_modify, eq_self_iff_true, if_true]
            rw [hnext]
            rw [if_neg hed, if_neg (show ¬ (e = m.nextId + 1) by omega), hse]
            simp [hpe]
  · rw [if_neg hrel] at h₁
    simp only [Except.ok.injEq, Prod.mk.injEq] at h₁
    obtain ⟨hp₁, hm₁⟩ := h₁
    subst hp₁
    subst hm₁
    by_cases hed : e = d
    · subst hed
      have heed : ee = ed := by
        rw [he] at hd
        injection hd
      subst heed
      set M₁ : Model :=
        ((m.addEntity
              { kind := Kind.Presentation, diagram := some e, subject := some e,
                posX := x₁, posY := y₁ }).modify
            e fun de =>
              { de with ownedPresentation := de.ownedPresentation ++ [m.nextId] }).modify
          e fun ee => { ee with presentation := ee.presentation ++ [m.nextId] } with hM₁def
      have hse : M₁.store e =
          some { ee with
            ownedPresentation := ee.ownedPresentation ++ [m.nextId],
            presentation := ee.presentation ++ [m.nextId] } := by
        rw [hM₁def]
        simp only [Model.store_modify, Model.store_addEntity, Model.nextId_addEntity,
          eq_self_iff_true, if_true]
        rw [if_neg (show ¬ (e = m.nextId) by omega), he]
        rfl
      have hnext : M₁.nextId = m.nextId + 1 := by rw [hM₁def]; rfl
      unfold Model.drop
      rw [hse]
      dsimp only
      rw [if_neg (show ¬ (isRelationship { ee with
        ownedPresentation := ee.ownedPresentation ++ [m.nextId],
        presentation := ee.presentation ++ [m.nextId] } = true) from hrel)]
      rw [hnext]
      refine ⟨m.nextId + 1, _, rfl, ?_, ?_⟩
      · omega
      · unfold Model.presentationOf
        simp only [Model.store_modify, Model.store_addEntity, Model.nextId_addEntity,
          Model.nextId_modify, eq_self_iff_true, if_true]
        rw [hnext]
        rw [if_neg (show ¬ (e = m.nextId + 1) by omega), hse]
        simp [hpe]
    · set M₁ : Model :=
        ((m.addEntity
              { kind := Kind.Presentation, diagram := some d, subject := some e,
                posX := x₁, posY := y₁ }).modify
            d fun de =>
              { de with ownedPresentation := de.ownedPresentation ++ [m.nextId] }).modify
          e fun ee => { ee with presentation := ee.presentation ++ [m.nextId] } with hM₁def
      have hse : M₁.store e =
          some { ee with presentation := ee.presentation ++ [m.nextId] } := by
        rw [hM₁def]
        simp only [Model.store_modify, Model.store_addEntity, Model.nextId_addEntity,
          eq_self_iff_true, if_true]
        rw [if_neg hed, if_neg (show ¬ (e = m.nextId) by omega), he]
        rfl
      have hsd : M₁.store d =
          some { ed with ownedPresentation := ed.ownedPresentation ++ [m.nextId] } := by
        rw [hM₁def]
        simp only [Model.store_modify, Model.store_addEntity, Model.nextId_addEntity,
          eq_self_iff_true, if_true]
        rw [if_neg (show ¬ (d = e) from fun h => hed h.symm),
          if_neg (show ¬ (d = m.nextId) by omega), hd]
        rfl
      have hnext : M₁.nextId = m.nextId + 1 := by rw [hM₁def]; rfl
      unfold Model.drop
      rw [hse, hsd]
      dsimp only
      rw [if_neg (show ¬ (isRelationship
        { ee with presentation := ee.presentation ++ [m.nextId] } = true) from hrel)]
      rw [hnext]
      refine ⟨m.nextId + 1, _, rfl, ?_, ?_⟩
      · omega
      · unfold Model.presentationOf
        simp only [Model.store_modify, Model.store_addEntity, Model.nextId_addEntity,
          Model.nextId_modify, eq_self_iff_true, if_true]
        rw [hnext]
        rw [if_neg hed, if_neg (show ¬ (e = m.nextId + 1) by omega), hse]
        simp [hpe]

/-! ### Queries -/

theorem Model.mem_select {m : Model} {p : Entity → Bool} {x : Entity} :
    x ∈ m.select p ↔ (∃ i ∈ m.order, m.store i = some x) ∧ p x = true := by
  unfold Model.select
  rw [List.mem_filterMap]
  constructor
  · rintro ⟨i, hi, hf⟩
    cases hs : m.store i with
    | none => rw [hs] at hf; simp at hf
    | some e =>
      rw [hs] at hf
      dsimp only at hf
      by_cases hp : p e = true
      · rw [if_pos hp] at hf
        injection hf with hf
        subst hf
        exact ⟨⟨i, hi, hs⟩, hp⟩
      · rw [if_neg hp] at hf
        simp at hf
  · rintro ⟨⟨i, hi, hs⟩, hp⟩
    refine ⟨i, hi, ?_⟩
    rw [hs]
    dsimp only
    rw [if_pos hp]

theorem Model.select_create (m : Model) (hWF : m.WF) (k : Kind) (p : Entity → Bool) :
    (m.create k).2.select p =
      m.select p ++ (if p { kind := k } then [({ kind := k } : Entity)] else []) := by
  unfold Model.create Model.select
  dsimp only [Model.store_addEntity, Model.order_addEntity]
  rw [List.filterMap_append]
  congr 1
  · apply List.filterMap_congr
    intro i hi
    have hlt : ¬ (i = m.nextId) := by
      have := hWF.2 i hi
      omega
    rw [if_neg hlt]
  · by_cases hp : p { kind := k } = true <;>
      simp [hp, List.filterMap]

theorem Model.select_createMany (k : Kind) (n : Nat) :
    ∀ m : Model, m.WF →
      (m.createMany k n).select (kindIs k) =
        m.select (kindIs k) ++ List.replicate n ({ kind := k } : Entity) := by
  induction n with
  | zero =>
    intro m hWF
    simp [Model.createMany]
  | succ n ih =>
    intro m hWF
    rw [Model.createMany, ih _ (hWF.create k),
      Model.select_create m hWF k (kindIs k)]
    rw [if_pos (show kindIs k { kind := k } = true by simp [kindIs])]
    rw [List.append_assoc]
    rfl

/-- C7: `select(p)` returns exactly the currently stored entities that
satisfy `p` (reflecting the store at call time), new entities appear at
the end of the sequence in creation order, and after creating `n` entities
of kind `k` a `select` with the kind-`k` filter returns exactly those `n`
entities. -/
theorem select_exact (m : Model) (p : Entity → Bool) (x : Entity) (k : Kind) (n : Nat)
    (hWF : m.WF) :
    (x ∈ m.select p ↔ (∃ i ∈ m.order, m.store i = some x) ∧ p x = true) ∧
    (m.createMany k n).select (kindIs k) =
      m.select (kindIs k) ++ List.replicate n ({ kind := k } : Entity) ∧
    (m.select (kindIs k) = [] →
      ((m.createMany k n).select (kindIs k)).length = n) := by
  refine ⟨Model.mem_select, Model.select_createMany k n m hWF, ?_⟩
  intro h
  rw [Model.select_createMany k n m hWF, h]
  simp

/-! ### Well-formedness of the recipe and drop state transformers -/

theorem Model.assoc_stepOk_cases (m : Model) (a b : Nat) :
    stepOk (m.create_association a b) m = m ∨
    stepOk (m.create_association a b) m =
      (((m.addEntity { kind := Kind.Association }).addEntity
            { kind := Kind.Property, type := some a, association := some m.nextId }).addEntity
          { kind := Kind.Property, type := some b, association := some m.nextId }).modify
        m.nextId fun e =>
          { e with memberEnd := e.memberEnd ++ [m.nextId + 1, m.nextId + 1 + 1] } := by
  unfold stepOk Model.create_association
  cases ha : m.store a with
  | none => left; rfl
  | some ea =>
    cases hb : m.store b with
    | none => left; rfl
    | some eb =>
      by_cases hcl : (isClassifier ea && isClassifier eb) = true
      · right
        dsimp only
        rw [if_pos hcl]
        rfl
      · left
        dsimp only
        rw [if_neg hcl]

theorem Model.WF.assoc_stepOk {m : Model} (h : m.WF) (a b : Nat) :
    (stepOk (m.create_association a b) m).WF := by
  rcases Model.assoc_stepOk_cases m a b with heq | heq
  · rw [heq]; exact h
  · rw [heq]
    exact (((h.addEntity _).addEntity _).addEntity _).modify _ _

theorem Model.WF.gen_stepOk {m : Model} (h : m.WF) (g s : Nat) :
    (stepOk (m.create_generalization g s) m).WF := by
  rw [show stepOk (m.create_generalization g s) m = m.genStep (g, s) from rfl]
  exact h.genStep _

theorem Model.drop_stepOk_cases (m : Model) (e d : Nat) (x y : Int) :
    stepOk (m.drop e d x y) m = m ∨
    ∃ pres : Entity, stepOk (m.drop e d x y) m =
      ((m.addEntity pres).modify d fun de =>
          { de with ownedPresentation := de.ownedPresentation ++ [m.nextId] }).modify e
        fun ee => { ee with presentation := ee.presentation ++ [m.nextId] } := by
  unfold stepOk Model.drop
  cases he : m.store e with
  | none => left; rfl
  | some ee =>
    cases hd : m.store d with
    | none => left; rfl
    | some ed =>
      by_cases hrel : isRelationship ee = true
      · dsimp only
        rw [if_pos hrel]
        cases hep : m.endpointsOf ee with
        | none => left; rfl
        | some ab =>
          obtain ⟨a, b⟩ := ab
          dsimp only
          cases hfa : m.findPresentationOn d a with
          | none => left; rfl
          | some pa =>
            cases hfb : m.findPresentationOn d b with
            | none => left; rfl
            | some pb =>
              right
              exact ⟨_, rfl⟩
      · dsimp only
        rw [if_neg hrel]
        right
        exact ⟨_, rfl⟩

theorem Model.WF.drop_stepOk {m : Model} (h : m.WF) (e d : Nat) (x y : Int) :
    (stepOk (m.drop e d x y) m).WF := by
  rcases Model.drop_stepOk_cases m e d x y with heq | ⟨pres, heq⟩
  · rw [heq]; exact h
  · rw [heq]
    exact ((h.addEntity _).modify _ _).modify _ _

theorem wClasses_wf : wClasses.WF :=
  (Model.init_wf.create Kind.Class).create Kind.Class

theorem wFour_wf : wFour.WF :=
  (wClasses_wf.create Kind.Class).create Kind.Class

theorem wClassDiag_wf : wClassDiag.WF :=
  (Model.init_wf.create Kind.Class).create Kind.Diagram

theorem wAssoc_wf : wAssoc.WF := wClasses_wf.assoc_stepOk 0 1

theorem wAssocDiag_wf : wAssocDiag.WF := wAssoc_wf.create Kind.Diagram

theorem wAssocDropA_wf : wAssocDropA.WF := wAssocDiag_wf.drop_stepOk 0 5 1 1

theorem wAssocDropB_wf : wAssocDropB.WF := wAssocDropA_wf.drop_stepOk 1 5 2 2

/-! ### End-to-end scenario -/

/-- C8: in the scenario (three classifiers User = 0, Admin = 1, Order = 2;
a generalization User-Admin; an association User-Order whose ends are named
"orders" and "customer"; a diagram 7; dropping the three classifiers and
then the two relationships on it), both relationship drops succeed, the
diagram owns 5 presentations, and `select` returns exactly 1 Association
and exactly 1 Generalization. -/
theorem end_to_end_scenario :
    isOk demoDropGenR = true ∧ isOk demoDropAssocR = true ∧
    (demoFinal.ownedPresentationOf 7).length = 5 ∧
    (demoFinal.select (kindIs Kind.Association)).length = 1 ∧
    (demoFinal.select (kindIs Kind.Generalization)).length = 1 := by
  decide

/-! ### Witnesses -/

/-- C2 witness: four classifiers, generalizing 0 and 1, then an unrelated
generalization between 2 and 3. -/
theorem create_generalization_bidirectional_witness :
    ∃ m₁, wFour.create_generalization 0 1 = Except.ok (wFour.nextId, m₁) ∧
      1 ∈ m₁.specificOf 0 ∧ 0 ∈ m₁.generalOf 1 ∧
      1 ∈ (m₁.genMany [(2, 3)]).specificOf 0 ∧ 0 ∈ (m₁.genMany [(2, 3)]).generalOf 1 :=
  create_generalization_bidirectional wFour 0 1 { kind := Kind.Class } { kind := Kind.Class }
    wFour_wf rfl rfl rfl rfl [(2, 3)] (by decide)

/-- C3 witness: an association between classifiers 0 and 1 dropped on a
fresh diagram 5 before its endpoints are dropped. -/
theorem drop_relationship_missing_endpoint_witness :
    (wAssocDiag.dropRun 2 5 0 0).1 = Except.error Err.PreconditionFailed ∧
      (wAssocDiag.dropRun 2 5 0 0).2 = wAssocDiag ∧
      (wAssocDiag.dropRun 2 5 0 0).2.ownedPresentationOf 5 =
        wAssocDiag.ownedPresentationOf 5 :=
  drop_relationship_missing_endpoint wAssocDiag 2 5
    { kind := Kind.Association, memberEnd := [3, 4] } { kind := Kind.Diagram } 0 0
    rfl rfl rfl rfl 0 1 rfl (Or.inl rfl)

/-- C4 witness: the same association dropped after both endpoints have
presentations 6 and 7 on the diagram. -/
theorem drop_relationship_connects_witness :
    ∃ m' pres, wAssocDropB.drop 2 5 0 0 = Except.ok (wAssocDropB.nextId, m') ∧
      m'.store wAssocDropB.nextId = some pres ∧
      pres.kind = Kind.Presentation ∧ pres.subject = some 2 ∧ pres.diagram = some 5 ∧
      pres.endpoint0 = some 6 ∧ pres.endpoint1 = some 7 ∧
      m'.ownedPresentationOf 5 = wAssocDropB.ownedPresentationOf 5 ++ [wAssocDropB.nextId] :=
  drop_relationship_connects wAssocDropB 2 5
    { kind := Kind.Association, memberEnd := [3, 4] }
    { kind := Kind.Diagram, ownedPresentation := [6, 7] } 0 0
    wAssocDropB_wf rfl rfl rfl rfl 0 1 6 7 rfl rfl rfl

/-- C6 witness: classifier 0 dropped twice on diagram 1. -/
theorem drop_same_twice_distinct_witness :
    ∃ p₂ m₂, wAfterDrop.drop 0 1 6 6 = Except.ok (p₂, m₂) ∧ p₂ ≠ 2 ∧
      m₂.presentationOf 0 = [2, p₂] :=
  drop_same_twice_distinct wClassDiag 0 1 { kind := Kind.Class } { kind := Kind.Diagram }
    5 5 6 6 wClassDiag_wf rfl rfl rfl rfl 2 wAfterDrop rfl

/-- C7 witness: starting from the empty store, creating 2 classes makes the
class-kind `select` return exactly 2 entities. -/
theorem select_exact_witness :
    (({ kind := Kind.Class } : Entity) ∈ Model.init.select (kindIs Kind.Class) ↔
      (∃ i ∈ Model.init.order, Model.init.store i = some { kind := Kind.Class }) ∧
        kindIs Kind.Class { kind := Kind.Class } = true) ∧
    (Model.init.createMany Kind.Class 2).select (kindIs Kind.Class) =
      Model.init.select (kindIs Kind.Class) ++
        List.replicate 2 ({ kind := Kind.Class } : Entity) ∧
    (Model.init.select (kindIs Kind.Class) = [] →
      ((Model.init.createMany Kind.Class 2).select (kindIs Kind.Class)).length = 2) :=
  select_exact Model.init (kindIs Kind.Class) { kind := Kind.Class } Kind.Class 2
    Model.init_wf

/-- C10 witness: classifier 0 dropped on diagram 1. -/
theorem drop_plain_registers_witness :
    ∃ m' pres, wClassDiag.drop 0 1 5 5 = Except.ok (wClassDiag.nextId, m') ∧
      m'.store wClassDiag.nextId = some pres ∧ pres.kind = Kind.Presentation ∧
      pres.subject = some 0 ∧ pres.diagram = some 1 ∧
      m'.ownedPresentationOf 1 = wClassDiag.ownedPresentationOf 1 ++ [wClassDiag.nextId] ∧
      m'.presentationOf 0 = [wClassDiag.nextId] :=
  drop_plain_registers wClassDiag 0 1 { kind := Kind.Class } { kind := Kind.Diagram } 5 5
    wClassDiag_wf rfl rfl rfl rfl rfl

end Gaphor
